import Mathlib

/-!
Verification development for the ThatTube video service.

The model is a shallow embedding of the repository code:

* `src/videoProcessing.js` — `calculateRawVideoDuration`, `processVideo`
  (the frame-accurate raw trimmer) and `mergeVideos` (the two-pass raw
  concatenator), together with the Node `Buffer`/`fs`/`path` primitives
  they use;
* `src/unnamed/part_000` — the Express route layer: `POST /upload`,
  `POST /videos/:id/trim`, `POST /videos/merge`, `POST /videos/:id/share`
  and `GET /videos/share/:token`, over a relational catalog of videos
  and share links.

JavaScript numbers used for durations are modelled by `ℚ` (the claims are
stated in exact arithmetic); byte sizes and frame counts by `Nat`/`Int`
with the same floor operations the code performs.  Files and buffers are
length-plus-contents records; the filesystem and the catalog are
association lists.  The wall clock is an integer count of seconds, which
matches the one-second granularity at which SQLite `datetime` strings are
compared by the share-resolution query.
-/

set_option autoImplicit false
set_option maxRecDepth 4000

namespace ThatTube

/-! ### Character-list string helpers

Node `path` functions used by the code (`basename`, `dirname`, `extname`,
`join`) are modelled on `List Char`, structurally, so that the kernel can
evaluate them.  They implement the documented behaviour for the path
shapes the service produces (relative paths such as `uploads/xyz.raw`,
with no trailing slash). -/

/-- Split a character list on a separator character; mirrors
`String.prototype.split` for a one-character separator (always returns at
least one, possibly empty, group). -/
def splitOnChar (c : Char) : List Char → List (List Char)
  | [] => [[]]
  | x :: xs =>
    let r := splitOnChar c xs
    if x == c then [] :: r
    else
      match r with
      | [] => [[x]]
      | g :: gs => (x :: g) :: gs

/-- Node `path.basename(p)`: the final path component (after the last
slash). -/
def basename (p : String) : String :=
  ⟨(splitOnChar '/' p.data).getLastD p.data⟩

/-- JavaScript `String.prototype.startsWith`. -/
def strStartsWith (s pre : String) : Bool :=
  pre.data.isPrefixOf s.data

/-- JavaScript `String.prototype.endsWith`. -/
def strEndsWith (s suf : String) : Bool :=
  suf.data.isSuffixOf s.data

/-- Index of the last occurrence of a character in a list, if any. -/
def lastIdxOf (c : Char) (cs : List Char) : Option Nat :=
  match cs.reverse.findIdx? (· == c) with
  | none => none
  | some k => some (cs.length - 1 - k)

/-- Node `path.extname` restricted to a bare file name: the substring
from the last dot, except that a leading dot (dotfile) or no dot at all
gives the empty string. -/
def extnameOfName (name : String) : String :=
  match lastIdxOf '.' name.data with
  | none => ""
  | some 0 => ""
  | some k => ⟨name.data.drop k⟩

/-- Node `path.extname(p)`: the extension of the final path component. -/
def extname (p : String) : String :=
  extnameOfName (basename p)

/-- Node `path.dirname(p)`: everything before the last slash; `.` when
there is no slash; `/` when the only slash is leading. -/
def dirname (p : String) : String :=
  match lastIdxOf '/' p.data with
  | none => "."
  | some 0 => "/"
  | some k => ⟨p.data.take k⟩

/-- Node `path.join(dir, name)` for a simple two-segment join: a `.`
directory disappears, otherwise the segments are joined with a single
slash. -/
def pathJoin (dir name : String) : String :=
  if dir = "." then name
  else if strEndsWith dir "/" then dir ++ name
  else dir ++ "/" ++ name

/-- Node `path.basename(p, ext)`: the final component with a matching
trailing `ext` removed (unless the whole component equals `ext`). -/
def basenameNoExt (p ext : String) : String :=
  let b := basename p
  if ext != "" && b != ext && ext.data.isSuffixOf b.data then
    ⟨b.data.take (b.data.length - ext.data.length)⟩
  else b

/-! ### Bytes, buffers and the filesystem -/

/-- A byte buffer (also a stored file): a length together with the byte
at each index below the length. -/
structure Buf where
  size : Nat
  data : Nat → Nat

/-- The storage filesystem: an association list from paths to file
contents.  Paths act as unique keys (`fsWrite` replaces). -/
abbrev FS := List (String × Buf)

/-- `fs.statSync` / `fs.readFileSync` success case: the entry stored at
the path (paths are unique keys). -/
def fsLookup : FS → String → Option Buf
  | [], _ => none
  | e :: rest, p => if e.1 = p then some e.2 else fsLookup rest p

/-- `fs.unlinkSync p`. -/
def fsDelete : FS → String → FS
  | [], _ => []
  | e :: rest, p => if e.1 = p then fsDelete rest p else e :: fsDelete rest p

/-- `fs.writeFileSync p b` (create or replace). -/
def fsWrite (fs : FS) (p : String) (b : Buf) : FS :=
  (p, b) :: fsDelete fs p

/-! ### Raw frame geometry (videoProcessing.js lines 7-15) -/

def RAW_VIDEO_WIDTH : Nat := 320
def RAW_VIDEO_HEIGHT : Nat := 240
def RAW_VIDEO_FPS : Nat := 30
def BYTES_PER_PIXEL : Nat := 3
def FRAME_SIZE : Nat := RAW_VIDEO_WIDTH * RAW_VIDEO_HEIGHT * BYTES_PER_PIXEL
def TEST_VIDEO_DURATION : ℚ := 5
def LONG_VIDEO_DURATION : ℚ := 360

/-! ### Errors thrown inside videoProcessing.js -/

/-- The exceptions the video-processing layer can raise: a missing file
(`ENOENT` from `statSync`/`readFileSync`), the explicit invalid-trim
`Error`, and a `RangeError` from `Buffer` bounds checks. -/
inductive VpError where
  | notFound (path : String)
  | invalidArgument (msg : String)
  | rangeError
  deriving DecidableEq

instance {ε α : Type} [DecidableEq ε] [DecidableEq α] : DecidableEq (Except ε α)
  | .ok a, .ok b =>
    if h : a = b then .isTrue (by rw [h])
    else .isFalse (by intro hc; cases hc; exact h rfl)
  | .ok _, .error _ => .isFalse (by intro hc; cases hc)
  | .error _, .ok _ => .isFalse (by intro hc; cases hc)
  | .error e, .error f =>
    if h : e = f then .isTrue (by rw [h])
    else .isFalse (by intro hc; cases hc; exact h rfl)

/-! ### Duration estimator (videoProcessing.js lines 22-36) -/

/-- `calculateRawVideoDuration(filepath)`: fixture-prefixed file names
get fixed constants without touching the filesystem; every other file is
measured as `floor(size / FRAME_SIZE) / fps`, with `statSync` raising
`ENOENT` when the file is absent. -/
def calculateRawVideoDuration (fs : FS) (filepath : String) : Except VpError ℚ :=
  let filename := basename filepath
  if strStartsWith filename "test-video" then .ok TEST_VIDEO_DURATION
  else if strStartsWith filename "long-video" then .ok LONG_VIDEO_DURATION
  else
    match fsLookup fs filepath with
    | none => .error (.notFound filepath)
    | some f =>
      let totalFrames := f.size / FRAME_SIZE
      .ok ((totalFrames : ℚ) / (RAW_VIDEO_FPS : ℚ))

/-! ### Node `Buffer.prototype.copy`

`source.copy(target, targetStart, sourceStart, sourceEnd)` as implemented
by Node (`node_buffer.cc`): negative indices are rejected; if
`targetStart ≥ target.length` or `sourceStart ≥ sourceEnd` nothing is
copied; a `sourceStart` beyond the end of the source raises
`ERR_OUT_OF_RANGE`; otherwise the copied byte count is clamped to both
the remaining target capacity and the remaining source bytes. -/
def bufCopy (source target : Buf) (targetStart sourceStart sourceEnd : Nat) :
    Except VpError Buf :=
  if targetStart ≥ target.size ∨ sourceStart ≥ sourceEnd then .ok target
  else if sourceStart > source.size then .error .rangeError
  else
    let toCopy :=
      min (min (sourceEnd - sourceStart) (target.size - targetStart))
        (source.size - sourceStart)
    .ok ⟨target.size, fun i =>
      if targetStart ≤ i ∧ i < targetStart + toCopy then
        source.data (sourceStart + (i - targetStart))
      else target.data i⟩

/-- `Buffer.copy` with the JavaScript number arguments still signed:
Node rejects negative offsets before clamping. -/
def bufCopyI (source target : Buf) (targetStart sourceStart sourceEnd : ℤ) :
    Except VpError Buf :=
  if targetStart < 0 ∨ sourceStart < 0 ∨ sourceEnd < 0 then .error .rangeError
  else bufCopy source target targetStart.toNat sourceStart.toNat sourceEnd.toNat

/-! ### Frame-accurate trimmer (videoProcessing.js lines 61-139) -/

/-- The `{ trimStart, trimEnd }` options object; `none` is an absent
property. -/
structure TrimOptions where
  trimStart : Option ℚ
  trimEnd : Option ℚ

/-- A settled `processVideo` promise: the raw in-process path carries the
bytes it wrote; non-`.raw` inputs are delegated to the external ffmpeg
transcoder (an external collaborator, not remodelled here). -/
inductive ProcResult where
  | raw (outputPath : String) (duration : ℚ) (output : Buf)
  | delegated (outputPath : String) (duration : ℚ)

/-- The generated output path (videoProcessing.js lines 63-68):
`dir/<base>-trimmed-<timestamp><ext>`. -/
def trimOutputPath (inputPath : String) (timestamp : Nat) : String :=
  let dir := dirname inputPath
  let ext := extname inputPath
  let base := basenameNoExt inputPath ext
  pathJoin dir (base ++ "-trimmed-" ++ toString timestamp ++ ext)

/-- `processVideo(inputPath, options)`.  `timestamp` stands for the
`Date.now()` call.  All throws escape through the function-level catch
(which only re-wraps the message, see `wrapProcMessage`).  On the raw
path the function also performs the `writeFileSync`, so it returns the
updated filesystem. -/
def processVideo (fs : FS) (inputPath : String) (options : TrimOptions)
    (timestamp : Nat) : Except VpError (ProcResult × FS) :=
  let outputPath := trimOutputPath inputPath timestamp
  let isRawVideo := strEndsWith inputPath ".raw"
  match calculateRawVideoDuration fs inputPath with
  | .error e => .error e
  | .ok totalDuration =>
    let trimStart := options.trimStart.getD 0
    let trimEnd := options.trimEnd.getD 0
    let newDuration := totalDuration - trimStart - trimEnd
    if newDuration ≤ 0 then
      .error (.invalidArgument "Invalid trim parameters: resulting video would be empty")
    else if isRawVideo then
      let startFrame : ℤ := ⌊trimStart * (RAW_VIDEO_FPS : ℚ)⌋
      let endFrame : ℤ := ⌊(totalDuration - trimEnd) * (RAW_VIDEO_FPS : ℚ)⌋
      match fsLookup fs inputPath with
      | none => .error (.notFound inputPath)
      | some inputBuffer =>
        let outputSize : ℤ := (endFrame - startFrame) * (FRAME_SIZE : ℤ)
        if outputSize < 0 then .error .rangeError
        else
          let outputBuffer : Buf := ⟨outputSize.toNat, fun _ => 0⟩
          match bufCopyI inputBuffer outputBuffer 0 (startFrame * (FRAME_SIZE : ℤ))
              (endFrame * (FRAME_SIZE : ℤ)) with
          | .error e => .error e
          | .ok outBuf =>
            .ok (.raw outputPath newDuration outBuf,
              fsWrite fs outputPath outBuf)
    else
      .ok (.delegated outputPath newDuration, fs)

/-! ### Clip concatenator (videoProcessing.js lines 146-185) -/

/-- A settled `mergeVideos` promise, with the bytes it wrote. -/
structure MergeResult where
  outputPath : String
  duration : ℚ
  output : Buf

/-- First pass of `mergeVideos`: accumulate total duration and total
byte size, in input order. -/
def mergePass1 (fs : FS) : List String → ℚ → Nat → Except VpError (ℚ × Nat)
  | [], durAcc, sizeAcc => .ok (durAcc, sizeAcc)
  | p :: rest, durAcc, sizeAcc =>
    match calculateRawVideoDuration fs p with
    | .error e => .error e
    | .ok d =>
      match fsLookup fs p with
      | none => .error (.notFound p)
      | some f => mergePass1 fs rest (durAcc + d) (sizeAcc + f.size)

/-- Second pass of `mergeVideos`: copy each input at the running offset
(`inputBuffer.copy(outputBuffer, offset)` defaults the source range to
the whole input). -/
def mergePass2 (fs : FS) : List String → Buf → Nat → Except VpError Buf
  | [], buf, _ => .ok buf
  | p :: rest, buf, offset =>
    match fsLookup fs p with
    | none => .error (.notFound p)
    | some f =>
      match bufCopy f buf offset 0 f.size with
      | .error e => .error e
      | .ok buf2 => mergePass2 fs rest buf2 (offset + f.size)

/-- `mergeVideos(inputPaths)`.  An empty list makes the JavaScript
`path.dirname(inputPaths[0])` throw a `TypeError` (the route guarantees
at least two inputs); the model folds that into `rangeError`. -/
def mergeVideos (fs : FS) (inputPaths : List String) (timestamp : Nat) :
    Except VpError (MergeResult × FS) :=
  match inputPaths with
  | [] => .error .rangeError
  | p0 :: _ =>
    let outputPath := pathJoin (dirname p0) ("merged-" ++ toString timestamp ++ ".raw")
    match mergePass1 fs inputPaths 0 0 with
    | .error e => .error e
    | .ok (totalDuration, totalSize) =>
      match mergePass2 fs inputPaths ⟨totalSize, fun _ => 0⟩ 0 with
      | .error e => .error e
      | .ok outBuf =>
        .ok (⟨outputPath, totalDuration, outBuf⟩, fsWrite fs outputPath outBuf)

/-! ### Catalog store (`videos` and `share_links` tables) -/

/-- A row of the `videos` table. -/
structure Video where
  id : Nat
  filename : String
  filepath : String
  size : Nat
  duration : ℚ
  deriving DecidableEq

/-- A row of the `share_links` table.  `expiry` is the stored
`expiry_timestamp` as seconds on the resolver clock: the route compares
`datetime(expiry_timestamp) > datetime(now)`, an ISO-string comparison at
one-second granularity. -/
structure ShareLink where
  videoId : Nat
  token : String
  expiry : ℤ
  deriving DecidableEq

/-- The relational catalog plus the auto-increment counter. -/
structure Db where
  videos : List Video
  shareLinks : List ShareLink
  nextId : Nat
  deriving DecidableEq

/-- `SELECT * FROM videos WHERE id = ?`. -/
def dbFindVideo (db : Db) (id : Nat) : Option Video :=
  db.videos.find? (fun v => v.id == id)

/-- `INSERT INTO videos (filename, filepath, size, duration)`: a
single-row append returning `lastInsertRowid`. -/
def dbInsertVideo (db : Db) (filename filepath : String) (size : Nat)
    (duration : ℚ) : Db × Nat :=
  (⟨db.videos ++ [⟨db.nextId, filename, filepath, size, duration⟩],
    db.shareLinks, db.nextId + 1⟩, db.nextId)

/-! ### Route layer (src/unnamed/part_000) -/

/-- A rejected request: the HTTP status/kind plus the `error` message
field. -/
inductive ApiError where
  | invalidArgument (msg : String)
  | notFound (msg : String)
  | internal (msg : String)
  deriving DecidableEq

/-- The observable outcome of a state-changing route: the catalog, the
filesystem, and the response. -/
structure Outcome (α : Type) where
  db : Db
  fs : FS
  response : Except ApiError α

/-- The `message` of a videoProcessing throw, as seen by a route catch
block.  The `ENOENT` and `RangeError` texts are abbreviated (Node also
interpolates the path and the offending value); no claim depends on
them. -/
def vpMessage : VpError → String
  | .notFound _ => "ENOENT: no such file or directory"
  | .invalidArgument msg => msg
  | .rangeError => "The value of sourceStart is out of range"

/-- `processVideo` rethrows every inner error with this prefix
(videoProcessing.js line 137). -/
def wrapProcMessage (e : VpError) : String :=
  "Error processing video: " ++ vpMessage e

/-- `mergeVideos` rethrows every inner error with this prefix
(videoProcessing.js line 183). -/
def wrapMergeMessage (e : VpError) : String :=
  "Error merging videos: " ++ vpMessage e

/-- `POST /upload` after multer has stored the file at `filepath` with
generated name `filename` (part_000 lines 107-142). -/
def uploadVideo (db : Db) (fs : FS) (filepath filename : String) : Outcome Nat :=
  match fsLookup fs filepath with
  | none => ⟨db, fs, .error (.internal "Internal server error")⟩
  | some f =>
    match calculateRawVideoDuration fs filepath with
    | .error _ => ⟨db, fs, .error (.internal "Internal server error")⟩
    | .ok duration =>
      if duration > 300 then
        ⟨db, fsDelete fs filepath,
          .error (.invalidArgument "Video duration exceeds maximum allowed length (5 minutes)")⟩
      else
        let r := dbInsertVideo db filename filepath f.size duration
        ⟨r.1, fs, .ok r.2⟩

/-- JavaScript truthiness of an optional numeric request field: present
and non-zero. -/
def jsTruthy (o : Option ℚ) : Bool :=
  match o with
  | none => false
  | some q => q != 0

/-- The numeric value with the `|| 0` / absent default. -/
def optVal (o : Option ℚ) : ℚ := o.getD 0

/-- Successful trim-route response payload: a freshly created catalog
row, or the delegated external-transcoder path (whose filesystem effect
is performed by ffmpeg and is not modelled). -/
inductive TrimOk where
  | created (id : Nat)
  | delegated (outputPath : String) (duration : ℚ)

/-- `POST /videos/:id/trim` (part_000 lines 192-237).  Parameter
validation happens before the catalog lookup; a `processVideo` throw is
caught and surfaced as a 500 with the wrapped message. -/
def trimRoute (db : Db) (fs : FS) (videoId : Nat) (trimStart trimEnd : Option ℚ)
    (timestamp : Nat) : Outcome TrimOk :=
  if !jsTruthy trimStart && !jsTruthy trimEnd then
    ⟨db, fs, .error (.invalidArgument "Must specify either trimStart or trimEnd")⟩
  else if (jsTruthy trimStart && decide (optVal trimStart < 0))
      || (jsTruthy trimEnd && decide (optVal trimEnd < 0)) then
    ⟨db, fs, .error (.invalidArgument "Trim values must be positive")⟩
  else
    match dbFindVideo db videoId with
    | none => ⟨db, fs, .error (.notFound "Video not found")⟩
    | some video =>
      match processVideo fs video.filepath ⟨trimStart, trimEnd⟩ timestamp with
      | .error e => ⟨db, fs, .error (.internal (wrapProcMessage e))⟩
      | .ok (.raw outputPath duration outBuf, fs2) =>
        let r := dbInsertVideo db (basename outputPath) outputPath outBuf.size duration
        ⟨r.1, fs2, .ok (.created r.2)⟩
      | .ok (.delegated outputPath duration, fs2) =>
        ⟨db, fs2, .ok (.delegated outputPath duration)⟩

/-- The id-resolution loop of the merge route: returns the first missing
id, or all rows in order. -/
def resolveVideos (db : Db) : List Nat → Except Nat (List Video)
  | [] => .ok []
  | id :: rest =>
    match dbFindVideo db id with
    | none => .error id
    | some v =>
      match resolveVideos db rest with
      | .error m => .error m
      | .ok vs => .ok (v :: vs)

/-- `POST /videos/merge` (part_000 lines 279-326).  `none` models a
missing or non-array `videoIds` body field. -/
def mergeRoute (db : Db) (fs : FS) (videoIds : Option (List Nat))
    (timestamp : Nat) : Outcome Nat :=
  match videoIds with
  | none => ⟨db, fs, .error (.invalidArgument "Must provide an array of video IDs")⟩
  | some ids =>
    if ids.length < 2 then
      ⟨db, fs, .error (.invalidArgument "Must provide at least two video IDs to merge")⟩
    else
      match resolveVideos db ids with
      | .error missingId =>
        ⟨db, fs, .error (.notFound ("Video with ID " ++ toString missingId ++ " not found"))⟩
      | .ok videos =>
        match mergeVideos fs (videos.map (fun v => v.filepath)) timestamp with
        | .error e => ⟨db, fs, .error (.internal (wrapMergeMessage e))⟩
        | .ok (res, fs2) =>
          let r := dbInsertVideo db (basename res.outputPath) res.outputPath
            res.output.size res.duration
          ⟨r.1, fs2, .ok r.2⟩

/-- `POST /videos/:id/share` (part_000 lines 366-401).  `now` is the
clock in seconds, `rand` the `Math.random` suffix of the token; the
expiry is `now` plus the requested hours (default 24). -/
def shareCreate (db : Db) (videoId : Nat) (expiryHours : Option ℤ) (now : ℤ)
    (rand : String) : Db × Except ApiError (String × ℤ) :=
  match dbFindVideo db videoId with
  | none => (db, .error (.notFound "Video not found"))
  | some _ =>
    let hours := expiryHours.getD 24
    let token := toString now ++ "-" ++ rand
    let expiry := now + hours * 3600
    (⟨db.videos, db.shareLinks ++ [⟨videoId, token, expiry⟩], db.nextId⟩,
      .ok (token, expiry))

/-- `GET /videos/share/:token` (part_000 lines 427-458): the SQL query
joins `share_links` with `videos` and keeps rows with a matching token
whose expiry is strictly in the future at resolution time. -/
def resolveShare (db : Db) (token : String) (now : ℤ) : Except ApiError Video :=
  match db.shareLinks.find? (fun l =>
      l.token == token && decide (now < l.expiry)
        && (dbFindVideo db l.videoId).isSome) with
  | none => .error (.notFound "Share link not found or expired")
  | some l =>
    match dbFindVideo db l.videoId with
    | none => .error (.notFound "Share link not found or expired")
    | some v => .ok v

/-! ### Derived helpers used to state the claims -/

/-- The estimated duration of a stored clip, as a value (0 for the
unreachable missing-file case; only used under an existence
hypothesis). -/
def durAt (fs : FS) (p : String) : ℚ :=
  match calculateRawVideoDuration fs p with
  | .ok d => d
  | .error _ => 0

/-- Sum of per-clip estimated durations, in input order. -/
def durSum (fs : FS) (paths : List String) : ℚ :=
  (paths.map (durAt fs)).sum

/-- The stored byte size at a path (0 when absent; only used under an
existence hypothesis). -/
def fileSizeAt (fs : FS) (p : String) : Nat :=
  match fsLookup fs p with
  | some f => f.size
  | none => 0

/-- Sum of input file sizes, in input order. -/
def sizeSum (fs : FS) (paths : List String) : Nat :=
  (paths.map (fileSizeAt fs)).sum

/-- The stored files at the given paths (skipping absent ones; under the
all-exist hypothesis this is exactly the input list of files). -/
def filesAt (fs : FS) (paths : List String) : List Buf :=
  paths.filterMap (fsLookup fs)

/-- Byte-exact concatenation of buffers, the specification value for
merge output content. -/
def concatBufs : List Buf → Buf
  | [] => ⟨0, fun _ => 0⟩
  | b :: rest =>
    let r := concatBufs rest
    ⟨b.size + r.size, fun i => if i < b.size then b.data i else r.data (i - b.size)⟩

/-- The buffer the raw trim path produces for start frame `SF` and end
frame `EF` of input `f` (derived normal form of `Buffer.alloc` followed
by the clamped `Buffer.copy`): `(EF - SF) * FRAME_SIZE` bytes, the first
`min` of that and the available input bytes copied from offset
`SF * FRAME_SIZE`, the rest left at the zero fill. -/
def trimResultBuf (f : Buf) (SF EF : ℤ) : Buf :=
  ⟨((EF - SF) * (FRAME_SIZE : ℤ)).toNat, fun i =>
    if i < min (((EF - SF) * (FRAME_SIZE : ℤ)).toNat)
        (f.size - (SF * (FRAME_SIZE : ℤ)).toNat)
    then f.data ((SF * (FRAME_SIZE : ℤ)).toNat + i) else 0⟩

/-! ### Concrete fixtures used by witnesses and counterexamples -/

/-- A 60-frame all-zero raw clip. -/
def exBuf : Buf := ⟨13824000, fun _ => 0⟩

/-- A 150-frame all-zero raw clip (the 5-second example clip of the
spec). -/
def c2Buf : Buf := ⟨34560000, fun _ => 0⟩

/-- A one-file store holding the 150-frame clip. -/
def c2Fs : FS := [("uploads/a.raw", c2Buf)]

/-- A one-file store holding `exBuf`. -/
def exFs : FS := [("uploads/clip.raw", exBuf)]

/-- A stored over-long fixture clip (its fixture name, not its 100-byte
size, determines its duration). -/
def longBuf : Buf := ⟨100, fun _ => 0⟩

/-- A store holding the over-long fixture clip and the 60-frame clip. -/
def upFs : FS :=
  [("uploads/long-video-9.raw", longBuf), ("uploads/clip2.raw", exBuf)]

/-- An empty catalog. -/
def emptyDb : Db := ⟨[], [], 1⟩

/-- A catalog with one video row and one share link on it, expiring at
clock second 1000. -/
def shareDb : Db :=
  ⟨[⟨1, "v.raw", "uploads/v.raw", 0, 0⟩], [⟨1, "tok-abc", 1000⟩], 2⟩

/-- A catalog holding only video id 1. -/
def mergeDb : Db := ⟨[⟨1, "v.raw", "uploads/v.raw", 0, 0⟩], [], 2⟩

/-- A catalog whose video id 1 is the stored 150-frame clip of `c2Fs`. -/
def db7 : Db := ⟨[⟨1, "a.raw", "uploads/a.raw", 34560000, 5⟩], [], 2⟩

/-- A zero-byte file. -/
def zeroBuf : Buf := ⟨0, fun _ => 0⟩

/-- A store holding one zero-byte fixture-named clip: its estimated
duration (5 s) is unrelated to its real length. -/
def tvFs : FS := [("uploads/test-video-0.raw", zeroBuf)]

/-- A store holding one zero-byte ordinary clip. -/
def fs8 : FS := [("uploads/z.raw", zeroBuf)]

/-- Two tiny clips with distinguishable bytes, for the merge witness. -/
def mA : Buf := ⟨2, fun i => 10 + i⟩

/-- Second tiny clip. -/
def mB : Buf := ⟨3, fun i => 20 + i⟩

/-- The store holding the two tiny clips. -/
def mFs : FS := [("uploads/m1.raw", mA), ("uploads/m2.raw", mB)]

/-! ### Basic lemmas about the filesystem model -/

lemma fsLookup_fsDelete_self (fs : FS) (p : String) :
    fsLookup (fsDelete fs p) p = none := by
  induction fs with
  | nil => rfl
  | cons e rest ih =>
    by_cases hep : e.1 = p
    · simpa [fsDelete, hep] using ih
    · simpa [fsDelete, fsLookup, hep] using ih

lemma fsLookup_fsDelete_ne (fs : FS) {p q : String} (h : q ≠ p) :
    fsLookup (fsDelete fs p) q = fsLookup fs q := by
  have hpq : p ≠ q := fun hc => h hc.symm
  induction fs with
  | nil => rfl
  | cons e rest ih =>
    by_cases hep : e.1 = p
    · have heq : e.1 ≠ q := fun hc => h (hc ▸ hep)
      simp [fsDelete, fsLookup, hep, heq, ih, hpq]
    · by_cases heq : e.1 = q
      · simp [fsDelete, fsLookup, hep, heq, h]
      · simp [fsDelete, fsLookup, hep, heq, ih, h]

lemma fsLookup_fsWrite_self (fs : FS) (p : String) (b : Buf) :
    fsLookup (fsWrite fs p b) p = some b := by
  simp [fsWrite, fsLookup]

lemma fsLookup_fsWrite_ne (fs : FS) {p q : String} (b : Buf) (h : q ≠ p) :
    fsLookup (fsWrite fs p b) q = fsLookup fs q := by
  have hpq : p ≠ q := fun hc => h hc.symm
  rw [fsWrite]
  rw [show fsLookup ((p, b) :: fsDelete fs p) q
      = if p = q then some b else fsLookup (fsDelete fs p) q from rfl]
  rw [if_neg hpq]
  exact fsLookup_fsDelete_ne fs h

/-! ### Basic lemmas about the duration estimator -/

lemma long_not_test {s : String} (h : strStartsWith s "long-video" = true) :
    strStartsWith s "test-video" = false := by
  rcases List.isPrefixOf_iff_prefix.mp h with ⟨t, ht⟩
  by_contra hne
  rw [Bool.not_eq_false] at hne
  rcases List.isPrefixOf_iff_prefix.mp hne with ⟨u, hu⟩
  rw [← ht] at hu
  have e1 : ("test-video" : String).data
      = ['t', 'e', 's', 't', '-', 'v', 'i', 'd', 'e', 'o'] := rfl
  have e2 : ("long-video" : String).data
      = ['l', 'o', 'n', 'g', '-', 'v', 'i', 'd', 'e', 'o'] := rfl
  rw [e1, e2] at hu
  simp at hu

/-- The estimator only throws when the `statSync` lookup fails, and the
throw is the `ENOENT` error for the requested path. -/
lemma calcDur_error_none {fs : FS} {p : String} {e : VpError}
    (h : calculateRawVideoDuration fs p = .error e) :
    fsLookup fs p = none ∧ e = .notFound p := by
  unfold calculateRawVideoDuration at h
  by_cases h1 : strStartsWith (basename p) "test-video" = true
  · simp [h1] at h
  · rw [Bool.not_eq_true] at h1
    by_cases h2 : strStartsWith (basename p) "long-video" = true
    · simp [h1, h2] at h
    · rw [Bool.not_eq_true] at h2
      simp only [h1, h2, Bool.false_eq_true, if_false] at h
      cases hf : fsLookup fs p with
      | none =>
        rw [hf] at h
        simp only [Except.error.injEq] at h
        exact ⟨rfl, h.symm⟩
      | some f =>
        rw [hf] at h
        simp at h

/-- On an existing file the estimator succeeds, with value `durAt`. -/
lemma calcDur_ok_of_lookup {fs : FS} {p : String} {f : Buf}
    (hf : fsLookup fs p = some f) :
    calculateRawVideoDuration fs p = .ok (durAt fs p) := by
  unfold durAt
  cases hd : calculateRawVideoDuration fs p with
  | ok d => rfl
  | error e =>
    rcases calcDur_error_none hd with ⟨hnone, -⟩
    rw [hf] at hnone
    cases hnone

/-- Fixture shortcut (a): a `test-video`-prefixed name returns the fixed
5-second duration without touching the filesystem. -/
lemma calcDur_test {fs : FS} {p : String}
    (h : strStartsWith (basename p) "test-video" = true) :
    calculateRawVideoDuration fs p = .ok 5 := by
  simp [calculateRawVideoDuration, h, TEST_VIDEO_DURATION]

/-- Fixture shortcut (b): a `long-video`-prefixed name returns the fixed
360-second duration without touching the filesystem. -/
lemma calcDur_long {fs : FS} {p : String}
    (h : strStartsWith (basename p) "long-video" = true) :
    calculateRawVideoDuration fs p = .ok 360 := by
  simp [calculateRawVideoDuration, h, long_not_test h, LONG_VIDEO_DURATION]

/-- Case (c): a non-fixture name is measured from its stored byte
size. -/
lemma calcDur_size {fs : FS} {p : String} {f : Buf}
    (h1 : strStartsWith (basename p) "test-video" = false)
    (h2 : strStartsWith (basename p) "long-video" = false)
    (hf : fsLookup fs p = some f) :
    calculateRawVideoDuration fs p =
      .ok (((f.size / FRAME_SIZE : Nat) : ℚ) / (RAW_VIDEO_FPS : ℚ)) := by
  simp [calculateRawVideoDuration, h1, h2, hf]

end ThatTube

namespace ThatTube

/-! ### Lemmas about `Buffer.copy` and the raw trim path -/

lemma bufCopy_ok_size {source target : Buf} {a b c : Nat} {out : Buf}
    (h : bufCopy source target a b c = .ok out) : out.size = target.size := by
  unfold bufCopy at h
  split at h
  · simp only [Except.ok.injEq] at h
    rw [← h]
  · split at h
    · exact Except.noConfusion h
    · simp only [Except.ok.injEq] at h
      rw [← h]

lemma bufCopyI_ok_size {source target : Buf} {a b c : ℤ} {out : Buf}
    (h : bufCopyI source target a b c = .ok out) : out.size = target.size := by
  unfold bufCopyI at h
  split at h
  · exact Except.noConfusion h
  · exact bufCopy_ok_size h

lemma frameSize_cast : (FRAME_SIZE : ℤ) = 230400 := by
  norm_num [FRAME_SIZE, RAW_VIDEO_WIDTH, RAW_VIDEO_HEIGHT, BYTES_PER_PIXEL]

/-- Evaluation of the trim copy when the start offset is within the
input: the result is `trimResultBuf`. -/
lemma bufCopyI_trim_eval (f : Buf) (SF EF : ℤ)
    (hSFnn : 0 ≤ SF) (hSFEF : SF ≤ EF)
    (hin : SF * (FRAME_SIZE : ℤ) ≤ (f.size : ℤ)) :
    bufCopyI f ⟨((EF - SF) * (FRAME_SIZE : ℤ)).toNat, fun _ => 0⟩ 0
        (SF * (FRAME_SIZE : ℤ)) (EF * (FRAME_SIZE : ℤ)) =
      .ok (trimResultBuf f SF EF) := by
  have hF := frameSize_cast
  have hEFnn : 0 ≤ EF := le_trans hSFnn hSFEF
  have hneg : ¬ ((0 : ℤ) < 0 ∨ SF * (FRAME_SIZE : ℤ) < 0 ∨ EF * (FRAME_SIZE : ℤ) < 0) := by
    push_neg
    refine ⟨le_refl 0, ?_, ?_⟩ <;> rw [hF] <;> omega
  rcases eq_or_lt_of_le hSFEF with hEq | hLt
  · subst hEq
    unfold bufCopyI
    rw [if_neg hneg]
    unfold bufCopy
    rw [if_pos (Or.inl (by simp))]
    simp only [Except.ok.injEq, trimResultBuf, Buf.mk.injEq]
    refine ⟨trivial, ?_⟩
    funext i
    simp
  · have h4 : (EF * (FRAME_SIZE : ℤ)).toNat - (SF * (FRAME_SIZE : ℤ)).toNat
        = ((EF - SF) * (FRAME_SIZE : ℤ)).toNat := by
      rw [hF]
      have : (EF - SF) * 230400 = EF * 230400 - SF * 230400 := by ring
      rw [this]
      omega
    have h2 : 0 < ((EF - SF) * (FRAME_SIZE : ℤ)).toNat := by
      rw [hF]
      have h1 : 1 ≤ EF - SF := by omega
      have : 230400 ≤ (EF - SF) * 230400 := by nlinarith
      omega
    have h1 : (SF * (FRAME_SIZE : ℤ)).toNat < (EF * (FRAME_SIZE : ℤ)).toNat := by
      rw [hF]
      have : SF * 230400 < EF * 230400 := by nlinarith
      omega
    have h3 : (SF * (FRAME_SIZE : ℤ)).toNat ≤ f.size := by
      rw [hF] at hin ⊢
      omega
    unfold bufCopyI
    rw [if_neg hneg]
    unfold bufCopy
    rw [if_neg (by push_neg; exact ⟨by simpa using h2, h1⟩)]
    rw [if_neg (not_lt.mpr h3)]
    simp only [Except.ok.injEq, trimResultBuf, Buf.mk.injEq]
    refine ⟨trivial, ?_⟩
    funext i
    simp only [Int.toNat_zero, Nat.zero_le, true_and, Nat.sub_zero, Nat.zero_add,
      Nat.add_sub_cancel, tsub_zero, zero_add]
    rw [h4, min_self]
  -- no further goals

/-- Evaluation of the trim copy when the start offset lies beyond the
end of the input and there is at least one frame to produce: Node raises
`ERR_OUT_OF_RANGE`. -/
lemma bufCopyI_trim_eval_err (f : Buf) (SF EF : ℤ)
    (hSFnn : 0 ≤ SF) (hLt : SF < EF)
    (hout : (f.size : ℤ) < SF * (FRAME_SIZE : ℤ)) :
    bufCopyI f ⟨((EF - SF) * (FRAME_SIZE : ℤ)).toNat, fun _ => 0⟩ 0
        (SF * (FRAME_SIZE : ℤ)) (EF * (FRAME_SIZE : ℤ)) = .error .rangeError := by
  have hF := frameSize_cast
  have hEFnn : 0 ≤ EF := le_trans hSFnn (le_of_lt hLt)
  have hneg : ¬ ((0 : ℤ) < 0 ∨ SF * (FRAME_SIZE : ℤ) < 0 ∨ EF * (FRAME_SIZE : ℤ) < 0) := by
    push_neg
    refine ⟨le_refl 0, ?_, ?_⟩ <;> rw [hF] <;> omega
  have h4 : (EF * (FRAME_SIZE : ℤ)).toNat - (SF * (FRAME_SIZE : ℤ)).toNat
      = ((EF - SF) * (FRAME_SIZE : ℤ)).toNat := by
    rw [hF]
    have : (EF - SF) * 230400 = EF * 230400 - SF * 230400 := by ring
    rw [this]
    omega
  have h2 : 0 < ((EF - SF) * (FRAME_SIZE : ℤ)).toNat := by
    rw [hF]
    have h1 : 1 ≤ EF - SF := by omega
    have : 230400 ≤ (EF - SF) * 230400 := by nlinarith
    omega
  have h1 : (SF * (FRAME_SIZE : ℤ)).toNat < (EF * (FRAME_SIZE : ℤ)).toNat := by
    rw [hF]
    have : SF * 230400 < EF * 230400 := by nlinarith
    omega
  have h3 : f.size < (SF * (FRAME_SIZE : ℤ)).toNat := by
    rw [hF] at hout ⊢
    omega
  unfold bufCopyI
  rw [if_neg hneg]
  unfold bufCopy
  rw [if_neg (by push_neg; exact ⟨by simpa using h2, h1⟩)]
  rw [if_pos h3]

/-- Evaluation of `processVideo` on the raw path down to the copy step,
success case. -/
lemma processVideo_raw_eval_ok (fs : FS) (p : String) (opts : TrimOptions)
    (ts : Nat) (total s e : ℚ) (f : Buf) (outBuf : Buf)
    (hsopt : opts.trimStart.getD 0 = s)
    (heopt : opts.trimEnd.getD 0 = e)
    (htot : calculateRawVideoDuration fs p = .ok total)
    (hraw : strEndsWith p ".raw" = true)
    (hf : fsLookup fs p = some f)
    (hpos : 0 < total - s - e)
    (hT0 : ¬ ((⌊(total - e) * (RAW_VIDEO_FPS : ℚ)⌋ - ⌊s * (RAW_VIDEO_FPS : ℚ)⌋)
        * (FRAME_SIZE : ℤ) < 0))
    (hcopy : bufCopyI f
        ⟨((⌊(total - e) * (RAW_VIDEO_FPS : ℚ)⌋ - ⌊s * (RAW_VIDEO_FPS : ℚ)⌋)
          * (FRAME_SIZE : ℤ)).toNat, fun _ => 0⟩
        0 (⌊s * (RAW_VIDEO_FPS : ℚ)⌋ * (FRAME_SIZE : ℤ))
        (⌊(total - e) * (RAW_VIDEO_FPS : ℚ)⌋ * (FRAME_SIZE : ℤ)) = .ok outBuf) :
    processVideo fs p opts ts =
      .ok (.raw (trimOutputPath p ts) (total - s - e) outBuf,
        fsWrite fs (trimOutputPath p ts) outBuf) := by
  subst hsopt
  subst heopt
  simp only [processVideo, htot]
  rw [if_neg (not_le.mpr hpos)]
  rw [if_pos hraw]
  simp only [hf]
  rw [if_neg hT0]
  simp only [hcopy]

/-- Evaluation of `processVideo` on the raw path down to the copy step,
thrown-copy case. -/
lemma processVideo_raw_eval_err (fs : FS) (p : String) (opts : TrimOptions)
    (ts : Nat) (total s e : ℚ) (f : Buf) (e2 : VpError)
    (hsopt : opts.trimStart.getD 0 = s)
    (heopt : opts.trimEnd.getD 0 = e)
    (htot : calculateRawVideoDuration fs p = .ok total)
    (hraw : strEndsWith p ".raw" = true)
    (hf : fsLookup fs p = some f)
    (hpos : 0 < total - s - e)
    (hT0 : ¬ ((⌊(total - e) * (RAW_VIDEO_FPS : ℚ)⌋ - ⌊s * (RAW_VIDEO_FPS : ℚ)⌋)
        * (FRAME_SIZE : ℤ) < 0))
    (hcopy : bufCopyI f
        ⟨((⌊(total - e) * (RAW_VIDEO_FPS : ℚ)⌋ - ⌊s * (RAW_VIDEO_FPS : ℚ)⌋)
          * (FRAME_SIZE : ℤ)).toNat, fun _ => 0⟩
        0 (⌊s * (RAW_VIDEO_FPS : ℚ)⌋ * (FRAME_SIZE : ℤ))
        (⌊(total - e) * (RAW_VIDEO_FPS : ℚ)⌋ * (FRAME_SIZE : ℤ)) = .error e2) :
    processVideo fs p opts ts = .error e2 := by
  subst hsopt
  subst heopt
  simp only [processVideo, htot]
  rw [if_neg (not_le.mpr hpos)]
  rw [if_pos hraw]
  simp only [hf]
  rw [if_neg hT0]
  simp only [hcopy]

/-- Forward success lemma for the raw trim path: when the duration is
positive, the trim start is non-negative and the start offset lies
within the input file, the raw path succeeds and writes
`trimResultBuf`. -/
lemma processVideo_raw_success (fs : FS) (p : String) (opts : TrimOptions)
    (ts : Nat) (total s e : ℚ) (f : Buf)
    (hsopt : opts.trimStart.getD 0 = s)
    (heopt : opts.trimEnd.getD 0 = e)
    (htot : calculateRawVideoDuration fs p = .ok total)
    (hraw : strEndsWith p ".raw" = true)
    (hf : fsLookup fs p = some f)
    (hpos : 0 < total - s - e)
    (hs0 : 0 ≤ s)
    (hin : ⌊s * (RAW_VIDEO_FPS : ℚ)⌋ * (FRAME_SIZE : ℤ) ≤ (f.size : ℤ)) :
    processVideo fs p opts ts =
      .ok (.raw (trimOutputPath p ts) (total - s - e)
          (trimResultBuf f ⌊s * (RAW_VIDEO_FPS : ℚ)⌋ ⌊(total - e) * (RAW_VIDEO_FPS : ℚ)⌋),
        fsWrite fs (trimOutputPath p ts)
          (trimResultBuf f ⌊s * (RAW_VIDEO_FPS : ℚ)⌋ ⌊(total - e) * (RAW_VIDEO_FPS : ℚ)⌋)) := by
  have hSFnn : 0 ≤ ⌊s * (RAW_VIDEO_FPS : ℚ)⌋ :=
    Int.floor_nonneg.mpr (mul_nonneg hs0 (by norm_num))
  have hSFEF : ⌊s * (RAW_VIDEO_FPS : ℚ)⌋ ≤ ⌊(total - e) * (RAW_VIDEO_FPS : ℚ)⌋ := by
    apply Int.floor_le_floor
    have hse : s ≤ total - e := by linarith
    exact mul_le_mul_of_nonneg_right hse (by norm_num)
  have hT0 : ¬ ((⌊(total - e) * (RAW_VIDEO_FPS : ℚ)⌋ - ⌊s * (RAW_VIDEO_FPS : ℚ)⌋)
      * (FRAME_SIZE : ℤ) < 0) := by
    rw [frameSize_cast]
    omega
  exact processVideo_raw_eval_ok fs p opts ts total s e f _ hsopt heopt htot hraw hf hpos hT0
    (bufCopyI_trim_eval f _ _ hSFnn hSFEF hin)

/-- Forward failure lemma for the raw trim path: when the start offset
lies beyond the end of the input file and at least one frame is
requested, the copy raises and `processVideo` rejects with the range
error. -/
lemma processVideo_raw_rangeError (fs : FS) (p : String) (opts : TrimOptions)
    (ts : Nat) (total s e : ℚ) (f : Buf)
    (hsopt : opts.trimStart.getD 0 = s)
    (heopt : opts.trimEnd.getD 0 = e)
    (htot : calculateRawVideoDuration fs p = .ok total)
    (hraw : strEndsWith p ".raw" = true)
    (hf : fsLookup fs p = some f)
    (hpos : 0 < total - s - e)
    (hs0 : 0 ≤ s)
    (hout : (f.size : ℤ) < ⌊s * (RAW_VIDEO_FPS : ℚ)⌋ * (FRAME_SIZE : ℤ))
    (hlt : ⌊s * (RAW_VIDEO_FPS : ℚ)⌋ < ⌊(total - e) * (RAW_VIDEO_FPS : ℚ)⌋) :
    processVideo fs p opts ts = .error .rangeError := by
  have hSFnn : 0 ≤ ⌊s * (RAW_VIDEO_FPS : ℚ)⌋ :=
    Int.floor_nonneg.mpr (mul_nonneg hs0 (by norm_num))
  have hT0 : ¬ ((⌊(total - e) * (RAW_VIDEO_FPS : ℚ)⌋ - ⌊s * (RAW_VIDEO_FPS : ℚ)⌋)
      * (FRAME_SIZE : ℤ) < 0) := by
    rw [frameSize_cast]
    omega
  exact processVideo_raw_eval_err fs p opts ts total s e f _ hsopt heopt htot hraw hf hpos hT0
    (bufCopyI_trim_eval_err f _ _ hSFnn hlt hout)

/-! ### Claim theorems -/

/-- Claim C1: for a raw clip whose file name does not start with either
reserved fixture prefix, `estimateDuration` of a size-`S` file returns
`floor(S / 230400) / 30`; a `test-video`-prefixed name returns 5 and a
`long-video`-prefixed name returns 360, regardless of the file. -/
theorem C1_estimate_duration_policy (fs : FS) (p : String) :
    (strStartsWith (basename p) "test-video" = true →
      calculateRawVideoDuration fs p = .ok 5)
    ∧ (strStartsWith (basename p) "long-video" = true →
      calculateRawVideoDuration fs p = .ok 360)
    ∧ (strStartsWith (basename p) "test-video" = false →
      strStartsWith (basename p) "long-video" = false →
      ∀ f : Buf, fsLookup fs p = some f →
        calculateRawVideoDuration fs p =
          .ok (((f.size / FRAME_SIZE : Nat) : ℚ) / (RAW_VIDEO_FPS : ℚ))) :=
  ⟨fun h => calcDur_test h, fun h => calcDur_long h,
    fun h1 h2 _ hf => calcDur_size h1 h2 hf⟩

/-- Witness for C1 at a stored 60-frame clip and at fixture-named
paths that are not even stored. -/
theorem C1_witness :
    calculateRawVideoDuration exFs "uploads/clip.raw" =
      .ok (((exBuf.size / FRAME_SIZE : Nat) : ℚ) / (RAW_VIDEO_FPS : ℚ))
    ∧ calculateRawVideoDuration exFs "uploads/test-video-1.raw" = .ok 5
    ∧ calculateRawVideoDuration exFs "uploads/long-video-1.raw" = .ok 360 := by
  refine ⟨(C1_estimate_duration_policy exFs "uploads/clip.raw").2.2
      (by decide) (by decide) exBuf rfl,
    (C1_estimate_duration_policy exFs "uploads/test-video-1.raw").1 (by decide),
    (C1_estimate_duration_policy exFs "uploads/long-video-1.raw").2.1 (by decide)⟩

/-- Claim C4: resolving a share token fails with NotFound exactly when
either no stored link carries the token or the resolver clock at the
moment of resolution is at or past the expiry of every link carrying it;
in particular a token is resolvable whenever the current time is strictly
before its expiry, and the comparison is made against the clock value
`now` passed at resolution time, with no cached expiry state.  The
well-formedness hypothesis says every stored link references an existing
video row, which holds throughout the service since links are only
created for existing rows and rows are never deleted. -/
theorem C4_share_resolve_iff (db : Db) (token : String) (now : ℤ)
    (hwf : ∀ l ∈ db.shareLinks, (dbFindVideo db l.videoId).isSome = true) :
    (∃ e, resolveShare db token now = .error e) ↔
      ∀ l ∈ db.shareLinks, l.token = token → now ≥ l.expiry := by
  unfold resolveShare
  cases hfind : db.shareLinks.find? (fun l =>
      l.token == token && decide (now < l.expiry)
        && (dbFindVideo db l.videoId).isSome) with
  | none =>
    constructor
    · intro _ l hl htok
      have hnp := List.find?_eq_none.mp hfind l hl
      rw [Bool.and_eq_true, Bool.and_eq_true] at hnp
      by_contra hge
      push_neg at hge
      exact hnp ⟨⟨beq_iff_eq.mpr htok, decide_eq_true hge⟩, hwf l hl⟩
    · intro _
      exact ⟨.notFound "Share link not found or expired", rfl⟩
  | some l =>
    have hp := List.find?_some hfind
    rw [Bool.and_eq_true, Bool.and_eq_true] at hp
    obtain ⟨⟨htok, htime⟩, hvid⟩ := hp
    rw [Option.isSome_iff_exists] at hvid
    obtain ⟨v, hv⟩ := hvid
    simp only [hv]
    constructor
    · rintro ⟨e, he⟩
      exact Except.noConfusion he
    · intro hall
      have hmem := List.mem_of_find?_eq_some hfind
      have hge := hall l hmem (beq_iff_eq.mp htok)
      rw [decide_eq_true_eq] at htime
      omega

/-- Witness for C4 on `shareDb`, at an instant before the expiry and an
instant after it. -/
theorem C4_witness :
    ((∃ e, resolveShare shareDb "tok-abc" 500 = .error e) ↔
      ∀ l ∈ shareDb.shareLinks, l.token = "tok-abc" → (500 : ℤ) ≥ l.expiry)
    ∧ ((∃ e, resolveShare shareDb "tok-abc" 2000 = .error e) ↔
      ∀ l ∈ shareDb.shareLinks, l.token = "tok-abc" → (2000 : ℤ) ≥ l.expiry) :=
  ⟨C4_share_resolve_iff shareDb "tok-abc" 500 (by decide),
    C4_share_resolve_iff shareDb "tok-abc" 2000 (by decide)⟩

/-- Claim C5: an upload whose computed duration exceeds 300 seconds is
rejected with the invalid-argument error, the just-stored file is deleted
(no longer present afterwards) and the catalog is untouched; an upload
with duration at most 300 appends exactly one new catalog row recording
filename, path, byte size and duration. -/
theorem C5_upload_duration_cap (db : Db) (fs : FS) (filepath filename : String)
    (f : Buf) (d : ℚ)
    (hf : fsLookup fs filepath = some f)
    (hd : calculateRawVideoDuration fs filepath = .ok d) :
    (300 < d →
      uploadVideo db fs filepath filename =
        ⟨db, fsDelete fs filepath,
          .error (.invalidArgument "Video duration exceeds maximum allowed length (5 minutes)")⟩
      ∧ fsLookup (fsDelete fs filepath) filepath = none)
    ∧ (d ≤ 300 →
      uploadVideo db fs filepath filename =
        ⟨⟨db.videos ++ [⟨db.nextId, filename, filepath, f.size, d⟩],
          db.shareLinks, db.nextId + 1⟩, fs, .ok db.nextId⟩) := by
  constructor
  · intro h300
    refine ⟨?_, fsLookup_fsDelete_self fs filepath⟩
    unfold uploadVideo
    simp only [hf, hd]
    rw [if_pos h300]
  · intro h300
    unfold uploadVideo
    simp only [hf, hd]
    rw [if_neg (not_lt.mpr h300)]
    rfl

/-- Witness for C5: the 360-second fixture clip is rejected and removed;
the 2-second clip is accepted and recorded. -/
theorem C5_witness :
    (uploadVideo emptyDb upFs "uploads/long-video-9.raw" "long-video-9.raw" =
      ⟨emptyDb, fsDelete upFs "uploads/long-video-9.raw",
        .error (.invalidArgument "Video duration exceeds maximum allowed length (5 minutes)")⟩
      ∧ fsLookup (fsDelete upFs "uploads/long-video-9.raw") "uploads/long-video-9.raw" = none)
    ∧ uploadVideo emptyDb upFs "uploads/clip2.raw" "clip2.raw" =
      ⟨⟨emptyDb.videos ++ [⟨emptyDb.nextId, "clip2.raw", "uploads/clip2.raw", exBuf.size, 2⟩],
        emptyDb.shareLinks, emptyDb.nextId + 1⟩, upFs, .ok emptyDb.nextId⟩ := by
  have hd2 : calculateRawVideoDuration upFs "uploads/clip2.raw" = .ok 2 := by
    rw [@calcDur_size upFs "uploads/clip2.raw" exBuf (by decide) (by decide) rfl]
    norm_num [exBuf, FRAME_SIZE, RAW_VIDEO_WIDTH, RAW_VIDEO_HEIGHT, BYTES_PER_PIXEL,
      RAW_VIDEO_FPS]
  exact ⟨(C5_upload_duration_cap emptyDb upFs "uploads/long-video-9.raw" "long-video-9.raw"
      longBuf 360 rfl (calcDur_long (by decide))).1 (by norm_num),
    (C5_upload_duration_cap emptyDb upFs "uploads/clip2.raw" "clip2.raw"
      exBuf 2 rfl hd2).2 (by norm_num)⟩

/-- The merge-route id loop surfaces the first unresolvable id. -/
lemma resolveVideos_error_of_missing (db : Db) (ids : List Nat)
    (h : ∃ i ∈ ids, dbFindVideo db i = none) :
    ∃ m ∈ ids, dbFindVideo db m = none ∧ resolveVideos db ids = .error m := by
  induction ids with
  | nil => simp at h
  | cons id rest ih =>
    cases hid : dbFindVideo db id with
    | none => exact ⟨id, by simp, hid, by simp [resolveVideos, hid]⟩
    | some v =>
      have hrest : ∃ i ∈ rest, dbFindVideo db i = none := by
        rcases h with ⟨i, hi, hnone⟩
        rcases List.mem_cons.mp hi with rfl | hm
        · rw [hid] at hnone; cases hnone
        · exact ⟨i, hm, hnone⟩
      rcases ih hrest with ⟨m, hm, hmn, herr⟩
      exact ⟨m, List.mem_cons_of_mem _ hm, hmn, by simp [resolveVideos, hid, herr]⟩

/-- Claim C6: a merge request with fewer than two ids fails with the
invalid-argument error, and a request referencing an id missing from the
catalog fails with NotFound naming a missing id; in both cases the
catalog and the filesystem are left untouched (no row, no output
file). -/
theorem C6_merge_route_failures (db : Db) (fs : FS) (ids : List Nat) (ts : Nat) :
    (ids.length < 2 →
      mergeRoute db fs (some ids) ts =
        ⟨db, fs, .error (.invalidArgument "Must provide at least two video IDs to merge")⟩)
    ∧ (2 ≤ ids.length → (∃ i ∈ ids, dbFindVideo db i = none) →
      ∃ m ∈ ids, dbFindVideo db m = none ∧
        mergeRoute db fs (some ids) ts =
          ⟨db, fs, .error (.notFound ("Video with ID " ++ toString m ++ " not found"))⟩) := by
  constructor
  · intro hlen
    simp [mergeRoute, hlen]
  · intro h2 hmiss
    rcases resolveVideos_error_of_missing db ids hmiss with ⟨m, hm, hmn, herr⟩
    refine ⟨m, hm, hmn, ?_⟩
    have hnl : ¬ ids.length < 2 := not_lt.mpr h2
    simp [mergeRoute, hnl, herr]

/-- Claim C2: whenever a raw-clip trim succeeds, the byte length of the
written output equals exactly `(endFrame - startFrame) * 230400` for
`startFrame = floor(trimStart * 30)` and
`endFrame = floor((total - trimEnd) * 30)`, and the reported duration is
`total - trimStart - trimEnd`.  (The 150-frame instance of the claim is
the witness theorem.) -/
theorem C2_trim_output_size (fs : FS) (p : String) (opts : TrimOptions) (ts : Nat)
    (outPath : String) (dur : ℚ) (outBuf : Buf) (fs2 : FS) (total : ℚ)
    (htot : calculateRawVideoDuration fs p = .ok total)
    (hok : processVideo fs p opts ts = .ok (.raw outPath dur outBuf, fs2)) :
    (outBuf.size : ℤ) =
      (⌊(total - opts.trimEnd.getD 0) * (RAW_VIDEO_FPS : ℚ)⌋
        - ⌊opts.trimStart.getD 0 * (RAW_VIDEO_FPS : ℚ)⌋) * (FRAME_SIZE : ℤ)
    ∧ dur = total - opts.trimStart.getD 0 - opts.trimEnd.getD 0 := by
  simp only [processVideo, htot] at hok
  split at hok
  · exact absurd hok (by simp)
  · split at hok
    · split at hok
      · exact absurd hok (by simp)
      · split at hok
        · exact absurd hok (by simp)
        next hns =>
          split at hok
          next heq => exact absurd hok (by simp)
          next b heq =>
            have hbs := bufCopyI_ok_size heq
            simp only [Except.ok.injEq, Prod.mk.injEq, ProcResult.raw.injEq] at hok
            obtain ⟨⟨-, hdur, hbuf⟩, -⟩ := hok
            rw [← hbuf, hbs]
            constructor
            · exact_mod_cast (Int.toNat_of_nonneg (not_lt.mp hns))
            · exact hdur.symm
    · exact absurd hok (by simp)

/-- Witness for C6: a one-element request and a request naming the
missing id 5. -/
theorem C6_witness :
    mergeRoute mergeDb exFs (some [1]) 3 =
      ⟨mergeDb, exFs, .error (.invalidArgument "Must provide at least two video IDs to merge")⟩
    ∧ ∃ m ∈ ([1, 5] : List Nat), dbFindVideo mergeDb m = none ∧
      mergeRoute mergeDb exFs (some [1, 5]) 3 =
        ⟨mergeDb, exFs, .error (.notFound ("Video with ID " ++ toString m ++ " not found"))⟩ :=
  ⟨(C6_merge_route_failures mergeDb exFs [1] 3).1 (by norm_num),
    (C6_merge_route_failures mergeDb exFs [1, 5] 3).2 (by norm_num)
      ⟨5, by norm_num, by decide⟩⟩

/-- The 150-frame example clip measures 5 seconds. -/
lemma c2_total : calculateRawVideoDuration c2Fs "uploads/a.raw" = .ok 5 := by
  rw [@calcDur_size c2Fs "uploads/a.raw" c2Buf (by decide) (by decide) rfl]
  norm_num [c2Buf, FRAME_SIZE, RAW_VIDEO_WIDTH, RAW_VIDEO_HEIGHT, BYTES_PER_PIXEL,
    RAW_VIDEO_FPS]

/-- Concrete run of the spec example: trim the 150-frame clip by one
second on each side. -/
lemma c2_run : processVideo c2Fs "uploads/a.raw" ⟨some 1, some 1⟩ 7 =
    .ok (.raw "uploads/a-trimmed-7.raw" 3 (trimResultBuf c2Buf 30 120),
      fsWrite c2Fs "uploads/a-trimmed-7.raw" (trimResultBuf c2Buf 30 120)) := by
  have hSF : ⌊(1 : ℚ) * (RAW_VIDEO_FPS : ℚ)⌋ = 30 := by
    norm_num [RAW_VIDEO_FPS]
  have hEF : ⌊((5 : ℚ) - 1) * (RAW_VIDEO_FPS : ℚ)⌋ = 120 := by
    norm_num [RAW_VIDEO_FPS]
  have h := processVideo_raw_success c2Fs "uploads/a.raw" ⟨some 1, some 1⟩ 7 5 1 1 c2Buf
    rfl rfl c2_total (by decide) rfl (by norm_num) (by norm_num)
    (by rw [hSF, frameSize_cast]; norm_num [c2Buf])
  rw [hSF, hEF] at h
  have hpath : trimOutputPath "uploads/a.raw" 7 = "uploads/a-trimmed-7.raw" := rfl
  rw [hpath] at h
  norm_num at h
  exact h

/-- Witness for C2: the spec example.  Trimming the 150-frame 5-second
clip with `trimStart = trimEnd = 1` yields start frame 30, end frame
120, an output of 90 frames (20736000 bytes) and duration 3. -/
theorem C2_witness :
    processVideo c2Fs "uploads/a.raw" ⟨some 1, some 1⟩ 7 =
      .ok (.raw "uploads/a-trimmed-7.raw" 3 (trimResultBuf c2Buf 30 120),
        fsWrite c2Fs "uploads/a-trimmed-7.raw" (trimResultBuf c2Buf 30 120))
    ∧ ((trimResultBuf c2Buf 30 120).size : ℤ) = (120 - 30) * (FRAME_SIZE : ℤ)
    ∧ (trimResultBuf c2Buf 30 120).size = 20736000 := by
  refine ⟨c2_run, ?_, ?_⟩
  · have h := C2_trim_output_size c2Fs "uploads/a.raw" ⟨some 1, some 1⟩ 7
      "uploads/a-trimmed-7.raw" 3 (trimResultBuf c2Buf 30 120)
      (fsWrite c2Fs "uploads/a-trimmed-7.raw" (trimResultBuf c2Buf 30 120)) 5
      c2_total c2_run
    rw [h.1]
    norm_num [RAW_VIDEO_FPS]
  · norm_num [trimResultBuf, frameSize_cast]
    rfl

/-- Behaviour of the trim route when `processVideo` is guaranteed to
reject: whatever the request parameters, the catalog and the filesystem
are untouched and the response is some error. -/
lemma trimRoute_error_cases (db : Db) (fs : FS) (videoId : Nat)
    (tS tE : Option ℚ) (ts : Nat)
    (h : ∀ video : Video, dbFindVideo db videoId = some video →
      ∃ e2 : VpError, processVideo fs video.filepath ⟨tS, tE⟩ ts = .error e2) :
    (trimRoute db fs videoId tS tE ts).db = db
    ∧ (trimRoute db fs videoId tS tE ts).fs = fs
    ∧ ∃ a : ApiError, (trimRoute db fs videoId tS tE ts).response = .error a := by
  unfold trimRoute
  split
  · exact ⟨rfl, rfl, _, rfl⟩
  · split
    · exact ⟨rfl, rfl, _, rfl⟩
    · cases hvid : dbFindVideo db videoId with
      | none => exact ⟨rfl, rfl, _, rfl⟩
      | some video =>
        obtain ⟨e2, he2⟩ := h video hvid
        refine ⟨?_, ?_, ⟨.internal (wrapProcMessage e2), ?_⟩⟩ <;> simp only [he2]

/-- Claim C7 (amended): with both trim fields defaulting to 0, whenever
`total - trimStart - trimEnd ≤ 0` the trim fails with the
invalid-argument error whose message is
`Invalid trim parameters: resulting video would be empty`, leaving the
catalog and the filesystem untouched; and when neither `trimStart` nor
`trimEnd` is provided and positive the route rejects with an
invalid-argument error, also leaving the state untouched.  (The claim as
frozen quotes the message `resulting clip would be empty`; the code
throws `Invalid trim parameters: resulting video would be empty`, see
the counterexample.) -/
theorem C7_trim_precondition_failures (db : Db) (fs : FS) (videoId : Nat)
    (tS tE : Option ℚ) (ts : Nat) :
    (∀ video : Video, ∀ total : ℚ,
      dbFindVideo db videoId = some video →
      calculateRawVideoDuration fs video.filepath = .ok total →
      total - tS.getD 0 - tE.getD 0 ≤ 0 →
      processVideo fs video.filepath ⟨tS, tE⟩ ts =
        .error (.invalidArgument "Invalid trim parameters: resulting video would be empty")
      ∧ (trimRoute db fs videoId tS tE ts).db = db
      ∧ (trimRoute db fs videoId tS tE ts).fs = fs
      ∧ ∃ a : ApiError, (trimRoute db fs videoId tS tE ts).response = .error a)
    ∧ ((¬ ∃ q : ℚ, (tS = some q ∨ tE = some q) ∧ 0 < q) →
      (trimRoute db fs videoId tS tE ts).db = db
      ∧ (trimRoute db fs videoId tS tE ts).fs = fs
      ∧ ∃ m : String, (trimRoute db fs videoId tS tE ts).response =
          .error (.invalidArgument m)) := by
  constructor
  · intro video total hvid htot hle
    have hproc : processVideo fs video.filepath ⟨tS, tE⟩ ts =
        .error (.invalidArgument "Invalid trim parameters: resulting video would be empty") := by
      simp only [processVideo, htot]
      rw [if_pos hle]
    have hr := trimRoute_error_cases db fs videoId tS tE ts ?_
    · exact ⟨hproc, hr.1, hr.2.1, hr.2.2⟩
    · intro v hv
      rw [hvid] at hv
      cases hv
      exact ⟨_, hproc⟩
  · intro hnp
    have hposof : ∀ q : ℚ, tE = some q → q ≠ 0 → q < 0 := by
      intro q hq h0
      exact (le_of_not_lt fun hp => hnp ⟨q, Or.inr hq, hp⟩).lt_of_ne h0
    have hposofS : ∀ q : ℚ, tS = some q → q ≠ 0 → q < 0 := by
      intro q hq h0
      exact (le_of_not_lt fun hp => hnp ⟨q, Or.inl hq, hp⟩).lt_of_ne h0
    have hcase : (!jsTruthy tS && !jsTruthy tE) = true ∨
        ((jsTruthy tS && decide (optVal tS < 0))
          || (jsTruthy tE && decide (optVal tE < 0))) = true := by
      rcases tS with _ | q
      · rcases tE with _ | r
        · left; rfl
        · by_cases hr : r = 0
          · left; simp [jsTruthy, hr]
          · right
            simp [jsTruthy, optVal, hr, hposof r rfl hr]
      · by_cases hq : q = 0
        · rcases tE with _ | r
          · left; simp [jsTruthy, hq]
          · by_cases hr : r = 0
            · left; simp [jsTruthy, hq, hr]
            · right
              simp [jsTruthy, optVal, hq, hr, hposof r rfl hr]
        · right
          simp [jsTruthy, optVal, hq, hposofS q rfl hq]
    rcases hcase with hg | hg
    · unfold trimRoute
      rw [if_pos hg]
      exact ⟨rfl, rfl, _, rfl⟩
    · unfold trimRoute
      by_cases hg1 : (!jsTruthy tS && !jsTruthy tE) = true
      · rw [if_pos hg1]
        exact ⟨rfl, rfl, _, rfl⟩
      · rw [if_neg hg1, if_pos hg]
        exact ⟨rfl, rfl, _, rfl⟩

/-- Counterexample for C7 as frozen: at the concrete state, the
empty-result rejection carries the message
`Invalid trim parameters: resulting video would be empty`, not the
message `resulting clip would be empty` that the claim quotes. -/
theorem C7_counterexample :
    processVideo c2Fs "uploads/a.raw" ⟨some 3, some 3⟩ 9 =
      .error (.invalidArgument "Invalid trim parameters: resulting video would be empty")
    ∧ processVideo c2Fs "uploads/a.raw" ⟨some 3, some 3⟩ 9 ≠
      .error (.invalidArgument "resulting clip would be empty") := by
  have hproc : processVideo c2Fs "uploads/a.raw" ⟨some 3, some 3⟩ 9 =
      .error (.invalidArgument "Invalid trim parameters: resulting video would be empty") := by
    simp only [processVideo, c2_total]
    rw [if_pos (by norm_num)]
  refine ⟨hproc, ?_⟩
  rw [hproc]
  intro hc
  simp only [Except.error.injEq, VpError.invalidArgument.injEq] at hc
  exact absurd hc (by decide)

/-- Witness for C7 (amended): the empty-result rejection of a 3+3 trim
of the 5-second clip, and the rejection of a request providing neither
trim field. -/
theorem C7_witness :
    (processVideo c2Fs "uploads/a.raw" ⟨some 3, some 3⟩ 11 =
        .error (.invalidArgument "Invalid trim parameters: resulting video would be empty")
      ∧ (trimRoute db7 c2Fs 1 (some 3) (some 3) 11).db = db7
      ∧ (trimRoute db7 c2Fs 1 (some 3) (some 3) 11).fs = c2Fs
      ∧ ∃ a : ApiError, (trimRoute db7 c2Fs 1 (some 3) (some 3) 11).response = .error a)
    ∧ ((trimRoute db7 c2Fs 1 none none 11).db = db7
      ∧ (trimRoute db7 c2Fs 1 none none 11).fs = c2Fs
      ∧ ∃ m : String, (trimRoute db7 c2Fs 1 none none 11).response =
          .error (.invalidArgument m)) := by
  constructor
  · exact (C7_trim_precondition_failures db7 c2Fs 1 (some 3) (some 3) 11).1
      ⟨1, "a.raw", "uploads/a.raw", 34560000, 5⟩ 5 rfl c2_total (by norm_num)
  · refine (C7_trim_precondition_failures db7 c2Fs 1 none none 11).2 ?_
    rintro ⟨q, hq | hq, -⟩ <;> cases hq

/-- Counterexample for C8 as frozen: a fixture-prefixed path that is
absent from storage does not make the estimator fail NotFound; the
fixture shortcut answers 5 without consulting the filesystem. -/
theorem C8_counterexample :
    fsLookup ([] : FS) "uploads/test-video-1.raw" = none
    ∧ calculateRawVideoDuration ([] : FS) "uploads/test-video-1.raw" = .ok 5 :=
  ⟨rfl, calcDur_test (by decide)⟩

/-- Claim C8 (amended): for a clip whose file name does not start with
either reserved fixture prefix, the estimator fails with the NotFound
error exactly when the file does not exist (third conjunct: an error
implies the file is missing, so it never raises on an existing file),
and an existing zero-byte file yields duration 0.  Fixture-prefixed
names bypass the existence check entirely (see the counterexample). -/
theorem C8_estimate_duration_errors (fs : FS) (p : String)
    (h1 : strStartsWith (basename p) "test-video" = false)
    (h2 : strStartsWith (basename p) "long-video" = false) :
    (fsLookup fs p = none →
      calculateRawVideoDuration fs p = .error (.notFound p))
    ∧ (∀ f : Buf, fsLookup fs p = some f → f.size = 0 →
      calculateRawVideoDuration fs p = .ok 0)
    ∧ (∀ e : VpError, calculateRawVideoDuration fs p = .error e →
      fsLookup fs p = none) := by
  refine ⟨fun hn => ?_, fun f hf h0 => ?_, fun e he => (calcDur_error_none he).1⟩
  · simp [calculateRawVideoDuration, h1, h2, hn]
  · rw [calcDur_size h1 h2 hf, h0]
    norm_num

/-- Witness for C8 (amended): a missing ordinary path fails NotFound; a
stored zero-byte ordinary clip measures 0 seconds. -/
theorem C8_witness :
    calculateRawVideoDuration fs8 "uploads/missing.raw" =
      .error (.notFound "uploads/missing.raw")
    ∧ calculateRawVideoDuration fs8 "uploads/z.raw" = .ok 0 :=
  ⟨(C8_estimate_duration_errors fs8 "uploads/missing.raw" (by decide) (by decide)).1 rfl,
    (C8_estimate_duration_errors fs8 "uploads/z.raw" (by decide) (by decide)).2.1
      zeroBuf rfl rfl⟩

lemma strEndsWith_append (a b : String) : strEndsWith (a ++ b) b = true := by
  unfold strEndsWith
  rw [List.isSuffixOf_iff_suffix, String.data_append]
  exact List.suffix_append a.data b.data

lemma strEndsWith_append_left (a b c : String) (h : strEndsWith b c = true) :
    strEndsWith (a ++ b) c = true := by
  unfold strEndsWith at h ⊢
  rw [List.isSuffixOf_iff_suffix] at h ⊢
  rw [String.data_append]
  exact List.IsSuffix.trans h (List.suffix_append a.data b.data)

/-- The generated trim output path always ends with the extension of
the input path. -/
lemma strEndsWith_trimOutputPath (p : String) (ts : Nat) :
    strEndsWith (trimOutputPath p ts) (extname p) = true := by
  simp only [trimOutputPath, pathJoin]
  split
  · exact strEndsWith_append _ _
  · split
    · exact strEndsWith_append_left _ _ _ (strEndsWith_append _ _)
    · exact strEndsWith_append_left _ _ _ (strEndsWith_append _ _)

/-- Inversion of a successful raw trim: the output path is exactly the
generated one and the new filesystem is the write of the output buffer
at that path. -/
lemma processVideo_raw_inv {fs : FS} {p : String} {opts : TrimOptions} {ts : Nat}
    {outPath : String} {dur : ℚ} {b : Buf} {fs2 : FS}
    (hok : processVideo fs p opts ts = .ok (.raw outPath dur b, fs2)) :
    outPath = trimOutputPath p ts ∧ fs2 = fsWrite fs (trimOutputPath p ts) b := by
  simp only [processVideo] at hok
  split at hok
  · exact Except.noConfusion hok
  · split at hok
    · exact absurd hok (by simp)
    · split at hok
      · split at hok
        · exact absurd hok (by simp)
        · split at hok
          · exact absurd hok (by simp)
          · split at hok
            · exact absurd hok (by simp)
            · simp only [Except.ok.injEq, Prod.mk.injEq, ProcResult.raw.injEq] at hok
              obtain ⟨⟨hpath, -, hbuf⟩, hfs⟩ := hok
              refine ⟨hpath.symm, ?_⟩
              rw [← hfs, hbuf]
      · exact absurd hok (by simp)

/-- The trim route never deletes or updates an existing catalog row. -/
lemma trimRoute_videos_mono (db : Db) (fs : FS) (videoId : Nat)
    (tS tE : Option ℚ) (ts : Nat) :
    ∀ v ∈ db.videos, v ∈ (trimRoute db fs videoId tS tE ts).db.videos := by
  intro v hv
  unfold trimRoute
  split
  · exact hv
  · split
    · exact hv
    · split
      · exact hv
      · split
        · exact hv
        · simp only [dbInsertVideo]
          exact List.mem_append_left _ hv
        · exact hv

/-- Claim C9 (amended): a successful raw trim writes to the new path
`dir/<base>-trimmed-<timestamp><ext>` — derived from the source name
plus a uniqueness suffix consisting of the timestamp only — preserving
the source extension; the write touches no other path, the source file
is untouched (it is a different path, see the witness), and no existing
catalog row is removed or rewritten.  (The claim as frozen also asserts
a random component in the suffix; the code builds the name from
`Date.now()` alone, see the counterexample.) -/
theorem C9_trim_output_path (db : Db) (fs : FS) (videoId : Nat)
    (tS tE : Option ℚ) (ts : Nat) (video : Video)
    (outPath : String) (dur : ℚ) (b : Buf) (fs2 : FS)
    (hvid : dbFindVideo db videoId = some video)
    (hok : processVideo fs video.filepath ⟨tS, tE⟩ ts = .ok (.raw outPath dur b, fs2)) :
    outPath = pathJoin (dirname video.filepath)
        (basenameNoExt video.filepath (extname video.filepath)
          ++ "-trimmed-" ++ toString ts ++ extname video.filepath)
    ∧ strEndsWith outPath (extname video.filepath) = true
    ∧ fs2 = fsWrite fs outPath b
    ∧ fsLookup fs2 outPath = some b
    ∧ (∀ q : String, q ≠ outPath → fsLookup fs2 q = fsLookup fs q)
    ∧ (video.filepath ≠ outPath →
        fsLookup fs2 video.filepath = fsLookup fs video.filepath)
    ∧ ∀ v ∈ db.videos, v ∈ (trimRoute db fs videoId tS tE ts).db.videos := by
  obtain ⟨hpath, hfs⟩ := processVideo_raw_inv hok
  subst hpath
  refine ⟨rfl, strEndsWith_trimOutputPath _ _, hfs, ?_, ?_, ?_,
    trimRoute_videos_mono db fs videoId tS tE ts⟩
  · rw [hfs]
    exact fsLookup_fsWrite_self fs _ b
  · intro q hq
    rw [hfs]
    exact fsLookup_fsWrite_ne fs b hq
  · intro hne
    rw [hfs]
    exact fsLookup_fsWrite_ne fs b hne

/-- Counterexample for C9 as frozen: the generated name for input
`uploads/a.raw` at timestamp 42 is exactly `uploads/a-trimmed-42.raw`,
and its basename admits no decomposition with a non-empty component
between the timestamp and the extension — there is no random component
in the uniqueness suffix. -/
theorem C9_counterexample :
    trimOutputPath "uploads/a.raw" 42 = "uploads/a-trimmed-42.raw"
    ∧ ¬ ∃ pre r : String, r.data ≠ [] ∧
        ("a-trimmed-42.raw" : String).data =
          pre.data ++ ((toString (42 : Nat)).data ++ (r.data ++ (".raw" : String).data)) := by
  refine ⟨rfl, ?_⟩
  rintro ⟨pre, r, hr, h⟩
  have h42 : (toString (42 : Nat)).data = ['4', '2'] := rfl
  rw [h42] at h
  have hget : ("a-trimmed-42.raw" : String).data[pre.data.length]? = some '4' := by
    rw [h, List.getElem?_append_right (le_refl pre.data.length)]
    simp
  have hr1 : r.data.length ≠ 0 := by
    intro h0
    exact hr (List.eq_nil_of_length_eq_zero h0)
  have hple : pre.data.length ≤ 9 := by
    have hlen := congrArg List.length h
    simp only [List.length_append, List.length_cons, List.length_nil] at hlen
    omega
  set k := pre.data.length with hk
  interval_cases k <;> exact absurd hget (by decide)

/-- Witness for C9 (amended), on the concrete spec-example trim: the
output name ends with the source extension, and the source file is left
exactly as it was. -/
theorem C9_witness :
    strEndsWith "uploads/a-trimmed-7.raw" (extname "uploads/a.raw") = true
    ∧ fsLookup (fsWrite c2Fs "uploads/a-trimmed-7.raw" (trimResultBuf c2Buf 30 120))
        "uploads/a.raw" = fsLookup c2Fs "uploads/a.raw"
    ∧ fsLookup (fsWrite c2Fs "uploads/a-trimmed-7.raw" (trimResultBuf c2Buf 30 120))
        "uploads/a-trimmed-7.raw" = some (trimResultBuf c2Buf 30 120) := by
  have h := C9_trim_output_path db7 c2Fs 1 (some 1) (some 1) 7
    ⟨1, "a.raw", "uploads/a.raw", 34560000, 5⟩ "uploads/a-trimmed-7.raw" 3
    (trimResultBuf c2Buf 30 120)
    (fsWrite c2Fs "uploads/a-trimmed-7.raw" (trimResultBuf c2Buf 30 120))
    rfl c2_run
  exact ⟨h.2.1, h.2.2.2.2.2.1 (by decide), h.2.2.2.1⟩

/-- Claim C10 (amended): for a raw trim whose requested byte range runs
past the end of the input file, two behaviours are possible.  If the
start offset is still within the file, the operation succeeds totally:
the output has exactly `(endFrame - startFrame) * FRAME_SIZE` bytes and
every position at or beyond the available input bytes holds a zero byte.
If instead the start offset itself lies beyond the input (and at least
one frame is requested), the `Buffer.copy` bounds check throws a
RangeError and the operation fails rather than succeeding. -/
theorem C10_out_of_range_trim (fs : FS) (p : String) (opts : TrimOptions)
    (ts : Nat) (total s e : ℚ) (f : Buf)
    (hsopt : opts.trimStart.getD 0 = s)
    (heopt : opts.trimEnd.getD 0 = e)
    (htot : calculateRawVideoDuration fs p = .ok total)
    (hraw : strEndsWith p ".raw" = true)
    (hf : fsLookup fs p = some f)
    (hpos : 0 < total - s - e)
    (hs0 : 0 ≤ s)
    (hEOF : (f.size : ℤ) < ⌊(total - e) * (RAW_VIDEO_FPS : ℚ)⌋ * (FRAME_SIZE : ℤ)) :
    (⌊s * (RAW_VIDEO_FPS : ℚ)⌋ * (FRAME_SIZE : ℤ) ≤ (f.size : ℤ) →
      processVideo fs p opts ts =
        .ok (.raw (trimOutputPath p ts) (total - s - e)
            (trimResultBuf f ⌊s * (RAW_VIDEO_FPS : ℚ)⌋ ⌊(total - e) * (RAW_VIDEO_FPS : ℚ)⌋),
          fsWrite fs (trimOutputPath p ts)
            (trimResultBuf f ⌊s * (RAW_VIDEO_FPS : ℚ)⌋ ⌊(total - e) * (RAW_VIDEO_FPS : ℚ)⌋))
      ∧ ((trimResultBuf f ⌊s * (RAW_VIDEO_FPS : ℚ)⌋
            ⌊(total - e) * (RAW_VIDEO_FPS : ℚ)⌋).size : ℤ)
          = (⌊(total - e) * (RAW_VIDEO_FPS : ℚ)⌋ - ⌊s * (RAW_VIDEO_FPS : ℚ)⌋)
            * (FRAME_SIZE : ℤ)
      ∧ (∀ i : Nat,
          f.size - (⌊s * (RAW_VIDEO_FPS : ℚ)⌋ * (FRAME_SIZE : ℤ)).toNat ≤ i →
          (trimResultBuf f ⌊s * (RAW_VIDEO_FPS : ℚ)⌋
            ⌊(total - e) * (RAW_VIDEO_FPS : ℚ)⌋).data i = 0))
    ∧ ((f.size : ℤ) < ⌊s * (RAW_VIDEO_FPS : ℚ)⌋ * (FRAME_SIZE : ℤ) →
      ⌊s * (RAW_VIDEO_FPS : ℚ)⌋ < ⌊(total - e) * (RAW_VIDEO_FPS : ℚ)⌋ →
      processVideo fs p opts ts = .error .rangeError) := by
  have hSFnn : 0 ≤ ⌊s * (RAW_VIDEO_FPS : ℚ)⌋ :=
    Int.floor_nonneg.mpr (mul_nonneg hs0 (by norm_num))
  have hSFEF : ⌊s * (RAW_VIDEO_FPS : ℚ)⌋ ≤ ⌊(total - e) * (RAW_VIDEO_FPS : ℚ)⌋ := by
    apply Int.floor_le_floor
    exact mul_le_mul_of_nonneg_right (by linarith) (by norm_num)
  constructor
  · intro hin
    refine ⟨processVideo_raw_success fs p opts ts total s e f hsopt heopt htot hraw hf
      hpos hs0 hin, ?_, ?_⟩
    · simp only [trimResultBuf]
      rw [Int.toNat_of_nonneg
        (mul_nonneg (by omega) (by rw [frameSize_cast]; norm_num))]
    · intro i hi
      have hnc : ¬ (i < min
          ((( ⌊(total - e) * (RAW_VIDEO_FPS : ℚ)⌋ - ⌊s * (RAW_VIDEO_FPS : ℚ)⌋)
            * (FRAME_SIZE : ℤ)).toNat)
          (f.size - (⌊s * (RAW_VIDEO_FPS : ℚ)⌋ * (FRAME_SIZE : ℤ)).toNat)) := by
        intro hc
        have h2 := lt_of_lt_of_le hc (min_le_right _ _)
        omega
      simp only [trimResultBuf, hnc, if_false]
  · intro hout hlt
    exact processVideo_raw_rangeError fs p opts ts total s e f hsopt heopt htot hraw hf
      hpos hs0 hout hlt

/-- Counterexample for C10 as frozen: trimming the stored zero-byte
fixture-named clip (estimated at 5 s regardless of its real length) with
`trimStart = 2` requests the byte range `[13824000, 34560000)` of a
0-byte file; the operation does not succeed with a zero-filled output —
the copy throws and the trim rejects with a RangeError. -/
theorem C10_counterexample :
    zeroBuf.size = 0
    ∧ calculateRawVideoDuration tvFs "uploads/test-video-0.raw" = .ok 5
    ∧ processVideo tvFs "uploads/test-video-0.raw" ⟨some 2, none⟩ 1 = .error .rangeError := by
  refine ⟨rfl, calcDur_test (by decide), ?_⟩
  have hSF : ⌊(2 : ℚ) * (RAW_VIDEO_FPS : ℚ)⌋ = 60 := by norm_num [RAW_VIDEO_FPS]
  have hEF : ⌊((5 : ℚ) - 0) * (RAW_VIDEO_FPS : ℚ)⌋ = 150 := by norm_num [RAW_VIDEO_FPS]
  exact processVideo_raw_rangeError tvFs "uploads/test-video-0.raw" ⟨some 2, none⟩ 1 5 2 0
    zeroBuf rfl rfl (calcDur_test (by decide)) (by decide) rfl (by norm_num) (by norm_num)
    (by rw [hSF, frameSize_cast]; norm_num [zeroBuf]) (by rw [hSF, hEF]; norm_num)

/-- Witness for C10 (amended): on the zero-byte fixture clip, a trim
with `trimStart` absent succeeds with an all-zero 120-frame output,
while a trim with `trimStart = 2` fails with the RangeError. -/
theorem C10_witness :
    (processVideo tvFs "uploads/test-video-0.raw" ⟨none, some 1⟩ 2 =
      .ok (.raw (trimOutputPath "uploads/test-video-0.raw" 2) ((5 : ℚ) - 0 - 1)
          (trimResultBuf zeroBuf ⌊(0 : ℚ) * (RAW_VIDEO_FPS : ℚ)⌋
            ⌊((5 : ℚ) - 1) * (RAW_VIDEO_FPS : ℚ)⌋),
        fsWrite tvFs (trimOutputPath "uploads/test-video-0.raw" 2)
          (trimResultBuf zeroBuf ⌊(0 : ℚ) * (RAW_VIDEO_FPS : ℚ)⌋
            ⌊((5 : ℚ) - 1) * (RAW_VIDEO_FPS : ℚ)⌋))
      ∧ ∀ i : Nat,
          zeroBuf.size - (⌊(0 : ℚ) * (RAW_VIDEO_FPS : ℚ)⌋ * (FRAME_SIZE : ℤ)).toNat ≤ i →
          (trimResultBuf zeroBuf ⌊(0 : ℚ) * (RAW_VIDEO_FPS : ℚ)⌋
            ⌊((5 : ℚ) - 1) * (RAW_VIDEO_FPS : ℚ)⌋).data i = 0)
    ∧ processVideo tvFs "uploads/test-video-0.raw" ⟨some 2, none⟩ 9 = .error .rangeError := by
  have hSF0 : ⌊(0 : ℚ) * (RAW_VIDEO_FPS : ℚ)⌋ = 0 := by norm_num
  have hSF2 : ⌊(2 : ℚ) * (RAW_VIDEO_FPS : ℚ)⌋ = 60 := by norm_num [RAW_VIDEO_FPS]
  have hEF4 : ⌊((5 : ℚ) - 1) * (RAW_VIDEO_FPS : ℚ)⌋ = 120 := by norm_num [RAW_VIDEO_FPS]
  have hEF5 : ⌊((5 : ℚ) - 0) * (RAW_VIDEO_FPS : ℚ)⌋ = 150 := by norm_num [RAW_VIDEO_FPS]
  have hA := C10_out_of_range_trim tvFs "uploads/test-video-0.raw" ⟨none, some 1⟩ 2 5 0 1
    zeroBuf rfl rfl (calcDur_test (by decide)) (by decide) rfl (by norm_num) (by norm_num)
    (by rw [hEF4, frameSize_cast]; norm_num [zeroBuf])
  have hB := C10_out_of_range_trim tvFs "uploads/test-video-0.raw" ⟨some 2, none⟩ 9 5 2 0
    zeroBuf rfl rfl (calcDur_test (by decide)) (by decide) rfl (by norm_num) (by norm_num)
    (by rw [hEF5, frameSize_cast]; norm_num [zeroBuf])
  have hAin : ⌊(0 : ℚ) * (RAW_VIDEO_FPS : ℚ)⌋ * (FRAME_SIZE : ℤ) ≤ (zeroBuf.size : ℤ) := by
    rw [hSF0]
    norm_num [zeroBuf]
  have hBout : (zeroBuf.size : ℤ) < ⌊(2 : ℚ) * (RAW_VIDEO_FPS : ℚ)⌋ * (FRAME_SIZE : ℤ) := by
    rw [hSF2, frameSize_cast]
    norm_num [zeroBuf]
  have hBlt : ⌊(2 : ℚ) * (RAW_VIDEO_FPS : ℚ)⌋ < ⌊((5 : ℚ) - 0) * (RAW_VIDEO_FPS : ℚ)⌋ := by
    rw [hSF2, hEF5]
    norm_num
  exact ⟨⟨(hA.1 hAin).1, (hA.1 hAin).2.2⟩, hB.2 hBout hBlt⟩

/-- Unfolding `sizeSum` over a cons cell with a stored head file. -/
lemma sizeSum_cons {fs : FS} {p : String} {f : Buf} (rest : List String)
    (hf : fsLookup fs p = some f) :
    sizeSum fs (p :: rest) = f.size + sizeSum fs rest := by
  simp [sizeSum, fileSizeAt, hf]

/-- Unfolding `filesAt` over a cons cell with a stored head file. -/
lemma filesAt_cons {fs : FS} {p : String} {f : Buf} (rest : List String)
    (hf : fsLookup fs p = some f) :
    filesAt fs (p :: rest) = f :: filesAt fs rest := by
  simp [filesAt, hf]

/-- Pass 1 of merge: with every input stored, it accumulates the sum of
the estimated durations and of the byte sizes onto the accumulators. -/
lemma mergePass1_ok (fs : FS) :
    ∀ (paths : List String) (dAcc : ℚ) (sAcc : Nat),
    (∀ p ∈ paths, (fsLookup fs p).isSome = true) →
    mergePass1 fs paths dAcc sAcc = .ok (dAcc + durSum fs paths, sAcc + sizeSum fs paths) := by
  intro paths
  induction paths with
  | nil =>
    intro dAcc sAcc _
    simp [mergePass1, durSum, sizeSum]
  | cons p rest ih =>
    intro dAcc sAcc h
    obtain ⟨f, hf⟩ := Option.isSome_iff_exists.mp (h p (List.mem_cons_self p rest))
    have hcd := calcDur_ok_of_lookup hf
    simp only [mergePass1, hcd, hf]
    rw [ih (dAcc + durAt fs p) (sAcc + f.size)
      (fun q hq => h q (List.mem_cons_of_mem _ hq))]
    simp only [Except.ok.injEq, Prod.mk.injEq]
    rw [sizeSum_cons rest hf]
    constructor
    · simp only [durSum, List.map_cons, List.sum_cons]
      ring
    · omega

/-- Pass 2 of merge: copying each stored input at the running offset into
an exactly-sized buffer fills `[offset, size)` with the concatenation of
the inputs and leaves `[0, offset)` untouched. -/
lemma mergePass2_ok (fs : FS) :
    ∀ (paths : List String) (buf : Buf) (offset : Nat),
    (∀ p ∈ paths, (fsLookup fs p).isSome = true) →
    buf.size = offset + sizeSum fs paths →
    ∃ out : Buf, mergePass2 fs paths buf offset = .ok out
      ∧ out.size = buf.size
      ∧ (∀ i, i < offset → out.data i = buf.data i)
      ∧ (∀ j, j < sizeSum fs paths →
          out.data (offset + j) = (concatBufs (filesAt fs paths)).data j) := by
  intro paths
  induction paths with
  | nil =>
    intro buf offset _ _
    exact ⟨buf, rfl, rfl, fun _ _ => rfl, fun j hj => absurd hj (by simp [sizeSum])⟩
  | cons p rest ih =>
    intro buf offset h hsz
    obtain ⟨f, hf⟩ := Option.isSome_iff_exists.mp (h p (List.mem_cons_self p rest))
    rw [sizeSum_cons rest hf] at hsz
    have hcopy : ∃ buf2 : Buf, bufCopy f buf offset 0 f.size = .ok buf2
        ∧ buf2.size = buf.size
        ∧ ∀ i, buf2.data i =
            if offset ≤ i ∧ i < offset + f.size then f.data (i - offset) else buf.data i := by
      by_cases hf0 : f.size = 0
      · refine ⟨buf, ?_, rfl, ?_⟩
        · unfold bufCopy
          rw [if_pos (Or.inr (by omega))]
        · intro i
          rw [if_neg (by omega)]
      · have h1 : f.size ≤ buf.size - offset := by omega
        unfold bufCopy
        rw [if_neg (by push_neg; exact ⟨by omega, by omega⟩)]
        rw [if_neg (by omega)]
        refine ⟨_, rfl, rfl, ?_⟩
        intro i
        have htc : min (min (f.size - 0) (buf.size - offset)) (f.size - 0) = f.size := by
          rw [Nat.sub_zero, min_eq_left h1, min_self]
        rw [htc]
        simp only [Nat.zero_add]
      -- done with hcopy
    obtain ⟨buf2, hc, hcs, hcd⟩ := hcopy
    obtain ⟨out, hrun, hos, hpres, hcontent⟩ := ih buf2 (offset + f.size)
      (fun q hq => h q (List.mem_cons_of_mem _ hq)) (by omega)
    refine ⟨out, ?_, by rw [hos, hcs], ?_, ?_⟩
    · simp only [mergePass2, hf, hc, hrun]
    · intro i hi
      rw [hpres i (by omega), hcd i, if_neg (by omega)]
    · intro j hj
      rw [sizeSum_cons rest hf] at hj
      rw [filesAt_cons rest hf]
      by_cases hjf : j < f.size
      · have hp := hpres (offset + j) (by omega)
        rw [hp, hcd (offset + j), if_pos ⟨by omega, by omega⟩]
        simp only [concatBufs, hjf, if_pos]
        congr 1
        omega
      · have hj2 := hcontent (j - f.size) (by omega)
        rw [show offset + f.size + (j - f.size) = offset + j from by omega] at hj2
        rw [hj2]
        simp only [concatBufs]
        rw [if_neg hjf]

/-- The concatenation of the stored inputs has exactly the summed
size. -/
lemma concatBufs_filesAt_size (fs : FS) (paths : List String)
    (hex : ∀ p ∈ paths, (fsLookup fs p).isSome = true) :
    (concatBufs (filesAt fs paths)).size = sizeSum fs paths := by
  induction paths with
  | nil => simp [filesAt, concatBufs, sizeSum]
  | cons p rest ih =>
    obtain ⟨f, hf⟩ := Option.isSome_iff_exists.mp (hex p (List.mem_cons_self p rest))
    rw [filesAt_cons rest hf, sizeSum_cons rest hf]
    simp only [concatBufs]
    rw [ih (fun q hq => hex q (List.mem_cons_of_mem _ hq))]

/-- Claim C3: merging an ordered list of at least two stored clips
produces a file whose byte content is the exact concatenation of the
inputs in order (so its size is the sum of the input sizes), and whose
reported duration is the exact sum of the per-clip estimated durations,
taken from pass 1 rather than recomputed from the merged size. -/
theorem C3_merge_concat (fs : FS) (paths : List String) (ts : Nat)
    (hlen : 2 ≤ paths.length)
    (hex : ∀ p ∈ paths, (fsLookup fs p).isSome = true) :
    ∃ res : MergeResult, ∃ fs2 : FS,
      mergeVideos fs paths ts = .ok (res, fs2)
      ∧ res.duration = durSum fs paths
      ∧ res.output.size = sizeSum fs paths
      ∧ res.output.size = (concatBufs (filesAt fs paths)).size
      ∧ (∀ i, i < res.output.size →
          res.output.data i = (concatBufs (filesAt fs paths)).data i)
      ∧ fs2 = fsWrite fs res.outputPath res.output := by
  cases paths with
  | nil => simp at hlen
  | cons p0 rest =>
    have h1 := mergePass1_ok fs (p0 :: rest) 0 0 hex
    simp only [zero_add, Nat.zero_add] at h1
    obtain ⟨out, hrun, hos, -, hcontent⟩ :=
      mergePass2_ok fs (p0 :: rest) ⟨sizeSum fs (p0 :: rest), fun _ => 0⟩ 0 hex (by simp)
    have hosz : out.size = sizeSum fs (p0 :: rest) := hos
    refine ⟨⟨pathJoin (dirname p0) ("merged-" ++ toString ts ++ ".raw"),
        durSum fs (p0 :: rest), out⟩,
      fsWrite fs (pathJoin (dirname p0) ("merged-" ++ toString ts ++ ".raw")) out,
      ?_, rfl, hosz, ?_, ?_, rfl⟩
    · simp only [mergeVideos, h1, hrun]
    · rw [hosz, concatBufs_filesAt_size fs _ hex]
    · intro i hi
      have hi2 : i < sizeSum fs (p0 :: rest) := by simpa [hosz] using hi
      have := hcontent i hi2
      simpa using this

/-- Witness for C3: merging the two tiny stored clips. -/
theorem C3_witness :
    ∃ res : MergeResult, ∃ fs2 : FS,
      mergeVideos mFs ["uploads/m1.raw", "uploads/m2.raw"] 5 = .ok (res, fs2)
      ∧ res.duration = durSum mFs ["uploads/m1.raw", "uploads/m2.raw"]
      ∧ res.output.size = sizeSum mFs ["uploads/m1.raw", "uploads/m2.raw"]
      ∧ res.output.size =
          (concatBufs (filesAt mFs ["uploads/m1.raw", "uploads/m2.raw"])).size
      ∧ (∀ i, i < res.output.size →
          res.output.data i =
            (concatBufs (filesAt mFs ["uploads/m1.raw", "uploads/m2.raw"])).data i)
      ∧ fs2 = fsWrite mFs res.outputPath res.output :=
  C3_merge_concat mFs ["uploads/m1.raw", "uploads/m2.raw"] 5 (by norm_num) (by decide)

end ThatTube
